import Mathlib

/-!
Verification of the GoBrrr-Pool web UI core: a shallow embedding of the
telemetry aggregation layer (stats normalizer, reconciling miner cache,
eviction sweeper, framed protocol client, and API access gate), with
theorems settling the specification's claims about it.

Numbers from the daemon are modelled as rationals; JavaScript records with
possibly-absent fields are modelled with `Option` fields; JavaScript objects
used as string-keyed dictionaries are modelled as association lists.
-/

namespace GoBrrr

/-- JavaScript `x || d` on an optional numeric field: absent and `0` are falsy. -/
def jsNumOr (o : Option ℚ) (d : ℚ) : ℚ :=
  match o with
  | some v => if v = 0 then d else v
  | none => d

/-- JavaScript `x || d` on an optional string field: absent and `""` are falsy. -/
def jsStrOr (o : Option String) (d : String) : String :=
  match o with
  | some s => if s = "" then d else s
  | none => d

/-- JavaScript truthiness of an optional string value: absent and `""` are falsy. -/
def jsStrTruthy (o : Option String) : Bool :=
  match o with
  | some s => s != ""
  | none => false

/-- Does the character list start with the given pattern (`String.startsWith` on data). -/
def charsStartWith : List Char → List Char → Bool
  | _, [] => true
  | [], _ :: _ => false
  | a :: as, b :: bs => (a == b) && charsStartWith as bs

/-- Does the character list contain the pattern as a contiguous run. -/
def charsHave : List Char → List Char → Bool
  | [], sub => charsStartWith [] sub
  | a :: as, sub => charsStartWith (a :: as) sub || charsHave as sub

/-- JavaScript `s.includes(sub)`: substring containment test. -/
def strIncludes (s sub : String) : Bool :=
  charsHave s.toList sub.toList

/-! ### Association-list model of JavaScript objects used as dictionaries -/

/-- `obj[k]`: first binding of the key, if any. -/
def mget {α : Type} : List (String × α) → String → Option α
  | [], _ => none
  | (k2, v) :: t, k => if k2 = k then some v else mget t k

/-- `obj[k] = v`: overwrite the first binding in place, else append. -/
def mset {α : Type} : List (String × α) → String → α → List (String × α)
  | [], k, v => [(k, v)]
  | (k2, w) :: t, k, v => if k2 = k then (k2, v) :: t else (k2, w) :: mset t k v

/-- `delete obj[k]`: drop every binding of the key. -/
def mdel {α : Type} : List (String × α) → String → List (String × α)
  | [], _ => []
  | (k2, w) :: t, k => if k2 = k then mdel t k else (k2, w) :: mdel t k

/-- `Object.keys(obj)`. -/
def mkeys {α : Type} (m : List (String × α)) : List String :=
  m.map Prod.fst

theorem mget_mset_self {α : Type} (m : List (String × α)) (k : String) (v : α) :
    mget (mset m k v) k = some v := by
  induction m with
  | nil => simp [mget, mset]
  | cons hd t ih =>
    obtain ⟨k2, w⟩ := hd
    by_cases h : k2 = k <;> simp [mget, mset, h, ih]

theorem mget_mset_ne {α : Type} (m : List (String × α)) (k x : String) (v : α)
    (hx : x ≠ k) : mget (mset m k v) x = mget m x := by
  have hkx : ¬ k = x := fun h => hx h.symm
  induction m with
  | nil => simp [mget, mset, hkx]
  | cons hd t ih =>
    obtain ⟨k2, w⟩ := hd
    by_cases h : k2 = k
    · subst h
      simp [mget, mset, hkx]
    · by_cases h2 : k2 = x <;> simp [mget, mset, h, h2, hx, ih]

theorem mget_mdel_self {α : Type} (m : List (String × α)) (k : String) :
    mget (mdel m k) k = none := by
  induction m with
  | nil => simp [mget, mdel]
  | cons hd t ih =>
    obtain ⟨k2, w⟩ := hd
    by_cases h : k2 = k <;> simp [mget, mdel, h, ih]

theorem mget_mdel_ne {α : Type} (m : List (String × α)) (k x : String)
    (hx : x ≠ k) : mget (mdel m k) x = mget m x := by
  have hkx : ¬ k = x := fun h => hx h.symm
  induction m with
  | nil => simp [mdel]
  | cons hd t ih =>
    obtain ⟨k2, w⟩ := hd
    by_cases h : k2 = k
    · subst h
      simp [mget, mdel, hkx, ih]
    · by_cases h2 : k2 = x <;> simp [mget, mdel, h, h2, hx, ih]

theorem mdel_sublist {α : Type} (m : List (String × α)) (k : String) :
    (mdel m k).Sublist m := by
  induction m with
  | nil => simp [mdel]
  | cons hd t ih =>
    obtain ⟨k2, w⟩ := hd
    by_cases h : k2 = k
    · simpa [mdel, h] using ih.cons (k2, w)
    · simpa [mdel, h] using ih.cons₂ (k2, w)

theorem mget_isSome_of_mem_keys {α : Type} (m : List (String × α)) (x : String)
    (hx : x ∈ mkeys m) : (mget m x).isSome := by
  induction m with
  | nil => simp [mkeys] at hx
  | cons hd t ih =>
    obtain ⟨k2, w⟩ := hd
    by_cases h : k2 = x
    · simp [mget, h]
    · simp only [mkeys, List.map_cons, List.mem_cons] at hx
      rcases hx with hx | hx
      · exact absurd hx.symm h
      · simpa [mget, h] using ih hx

/-! ### Stats normalizer (`webui/lib/stats-parser.js`) -/

/-- Hashrate derivation constant: `dsps * 2^32` hashes per second. -/
def NONCES_PER_SHARE : ℚ := 4294967296

/-- Raw `getuser` daemon record; absent JSON fields are `none`.  The `worker`
array of sub-records is passed through untouched by the normalizer, so its
element type is left as raw worker records. -/
structure UserRaw where
  error : Option String := none
  user : Option String := none
  username : Option String := none
  id : Option ℚ := none
  dsps1 : Option ℚ := none
  dsps5 : Option ℚ := none
  dsps60 : Option ℚ := none
  dsps1440 : Option ℚ := none
  dsps10080 : Option ℚ := none
  lastshare : Option ℚ := none
  shares : Option ℚ := none
  accepted : Option ℚ := none
  rejected : Option ℚ := none
  stale : Option ℚ := none
  bestever : Option ℚ := none
  bestshare : Option ℚ := none
  bestdiff : Option ℚ := none
  best_diff : Option ℚ := none
  workers : Option ℚ := none
  authorised : Option ℚ := none
deriving DecidableEq

/-- Raw `getworker` daemon record (also the element shape of the `workers`
command used by the cache merge). -/
structure WorkerRaw where
  error : Option String := none
  worker : Option String := none
  workername : Option String := none
  dsps1 : Option ℚ := none
  dsps5 : Option ℚ := none
  dsps60 : Option ℚ := none
  shares : Option ℚ := none
  bestever : Option ℚ := none
  bestshare : Option ℚ := none
  bestdiff : Option ℚ := none
  best_diff : Option ℚ := none
  lastshare : Option ℚ := none
  idle : Option Bool := none
deriving DecidableEq

/-- A daemon reply as seen by the normalizer: either a decoded JSON object or
a bare string (e.g. the sentinel `"unknown"`). -/
inductive JsArg (α : Type) where
  | str (s : String)
  | obj (o : α)
deriving DecidableEq

/-- JavaScript truthiness of a reply value: objects are truthy, `""` is falsy. -/
def jsArgTruthy {α : Type} : JsArg α → Bool
  | .str s => s != ""
  | .obj _ => true

/-- Field view of a reply: property access on a string yields `undefined`. -/
def jsArgFields {α : Type} (dflt : α) : JsArg α → α
  | .str _ => dflt
  | .obj o => o

/-- Normalized per-user hashrate record. -/
structure HashrateSet where
  current : ℚ
  avg5m : ℚ
  avg15m : ℚ
  avg1h : ℚ
  avg24h : ℚ
  avg7d : ℚ
deriving DecidableEq

/-- Normalized per-user share counters. -/
structure SharesSet where
  accepted : ℚ
  rejected : ℚ
  stale : ℚ
deriving DecidableEq

/-- Normalized user record produced by `parseUserStats`. -/
structure UserStats where
  address : String
  id : ℚ
  hashrate : HashrateSet
  shares : SharesSet
  bestDiff : ℚ
  lastShare : ℚ
  workerCount : ℚ
  isIdle : Bool
  authorised : ℚ
deriving DecidableEq

/-- The error-shape test of `parseUserStats`:
`raw.error || raw === 'unknown' || (typeof raw === 'string' && raw.includes('error'))`. -/
def userErrorCheck : JsArg UserRaw → Bool
  | .str s => (s == "unknown") || strIncludes s "error"
  | .obj o => jsStrTruthy o.error

/-- Record construction of `parseUserStats` after the error checks
(`nowSec` is the unfloored `Date.now() / 1000`). -/
def buildUserStats (nowSec : ℚ) (o : UserRaw) : UserStats :=
  let hashrate1m := jsNumOr o.dsps1 0 * NONCES_PER_SHARE
  let hashrate5m := jsNumOr o.dsps5 0 * NONCES_PER_SHARE
  let hashrate1h := jsNumOr o.dsps60 0 * NONCES_PER_SHARE
  let hashrate1d := jsNumOr o.dsps1440 0 * NONCES_PER_SHARE
  let hashrate7d := jsNumOr o.dsps10080 0 * NONCES_PER_SHARE
  let lastShare := jsNumOr o.lastshare 0
  { address := jsStrOr o.user (jsStrOr o.username "Unknown")
    id := jsNumOr o.id 0
    hashrate := ⟨hashrate1m, hashrate5m, 0, hashrate1h, hashrate1d, hashrate7d⟩
    shares := ⟨jsNumOr o.shares (jsNumOr o.accepted 0), jsNumOr o.rejected 0,
               jsNumOr o.stale 0⟩
    bestDiff := jsNumOr o.bestever (jsNumOr o.bestshare
                  (jsNumOr o.bestdiff (jsNumOr o.best_diff 0)))
    lastShare := lastShare
    workerCount := jsNumOr o.workers 0
    isIdle := decide (0 < lastShare) && decide (300 < nowSec - lastShare)
    authorised := jsNumOr o.authorised 0 }

/-- `parseUserStats` from `stats-parser.js`: `null` on falsy or error-shaped
input, otherwise the normalized record. -/
def parseUserStats (nowSec : ℚ) (raw : Option (JsArg UserRaw)) : Option UserStats :=
  match raw with
  | none => none
  | some r =>
    if !(jsArgTruthy r) then none
    else if userErrorCheck r then none
    else some (buildUserStats nowSec (jsArgFields {} r))

/-- Normalized worker record produced by `parseWorkerStats`. -/
structure WorkerStats where
  name : String
  hashrate : ℚ
  hashrate5m : ℚ
  hashrate1h : ℚ
  shares : ℚ
  bestDiff : ℚ
  lastShare : ℚ
  isIdle : Bool
deriving DecidableEq

/-- The error-shape test of `parseWorkerStats`: `raw.error || raw === 'unknown'`. -/
def workerErrorCheck : JsArg WorkerRaw → Bool
  | .str s => s == "unknown"
  | .obj o => jsStrTruthy o.error

/-- Record construction of `parseWorkerStats` after the error checks. -/
def buildWorkerStats (o : WorkerRaw) : WorkerStats :=
  { name := jsStrOr o.worker (jsStrOr o.workername "default")
    hashrate := jsNumOr o.dsps1 0 * NONCES_PER_SHARE
    hashrate5m := jsNumOr o.dsps5 0 * NONCES_PER_SHARE
    hashrate1h := jsNumOr o.dsps60 0 * NONCES_PER_SHARE
    shares := jsNumOr o.shares 0
    bestDiff := jsNumOr o.bestever (jsNumOr o.bestshare
                  (jsNumOr o.bestdiff (jsNumOr o.best_diff 0)))
    lastShare := jsNumOr o.lastshare 0
    isIdle := o.idle.getD false }

/-- `parseWorkerStats` from `stats-parser.js`. -/
def parseWorkerStats (raw : Option (JsArg WorkerRaw)) : Option WorkerStats :=
  match raw with
  | none => none
  | some r =>
    if !(jsArgTruthy r) then none
    else if workerErrorCheck r then none
    else some (buildWorkerStats (jsArgFields {} r))

/-- Raw `poolstats` daemon record. -/
structure PoolRaw where
  error : Option String := none
  users : Option ℚ := none
  workers : Option ℚ := none
  shares : Option ℚ := none
  accepted : Option ℚ := none
  rejected : Option ℚ := none
  sps1 : Option ℚ := none
  sps5 : Option ℚ := none
  start : Option ℚ := none
  update : Option ℚ := none
  dsps1 : Option ℚ := none
  dsps5 : Option ℚ := none
  dsps15 : Option ℚ := none
  dsps60 : Option ℚ := none
  dsps360 : Option ℚ := none
  dsps1440 : Option ℚ := none
  dsps10080 : Option ℚ := none
  bestdiff : Option ℚ := none
  height : Option ℚ := none
  diff : Option ℚ := none
deriving DecidableEq

/-- The nested fields of `stratifierstats` read via `getNestedValue`. -/
structure StratifierRaw where
  users_count : Option ℚ := none
  shares_generated : Option ℚ := none
  shares_count : Option ℚ := none
deriving DecidableEq

/-- The nested field of `connectorstats` read via `getNestedValue`. -/
structure ConnectorRaw where
  clients_count : Option ℚ := none
deriving DecidableEq

/-- Normalized pool snapshot produced by `parsePoolStats`. -/
structure PoolSnapshot where
  hashrate : ℚ
  hashrate1m : ℚ
  hashrate5m : ℚ
  hashrate15m : ℚ
  hashrate1h : ℚ
  hashrate6h : ℚ
  hashrate1d : ℚ
  hashrate7d : ℚ
  users : ℚ
  workers : ℚ
  shares : ℚ
  accepted : ℚ
  rejected : ℚ
  sps1 : ℚ
  sps5 : ℚ
  bestDiff : ℚ
  networkDiff : ℚ
  blocksFound : ℚ
  uptime : ℚ
  startTime : ℚ
  lastUpdate : ℚ
  connections : ℚ
  blockHeight : ℚ
deriving DecidableEq

/-- The zero-initialized pool record built at the top of `parsePoolStats`. -/
def emptyPoolSnapshot : PoolSnapshot :=
  ⟨0, 0, 0, 0, 0, 0, 0, 0, 0, 0, 0, 0, 0, 0, 0, 0, 0, 0, 0, 0, 0, 0, 0⟩

/-- The `poolstats` block of `parsePoolStats`: fill the zero-initialized pool
record from the raw payload when it is truthy and carries no error field. -/
def parsePoolFromPoolstats (nowSec : ℚ) (poolstats : Option (JsArg PoolRaw))
    (pool : PoolSnapshot) : PoolSnapshot :=
  match poolstats with
  | none => pool
  | some r =>
    if jsArgTruthy r && !(jsStrTruthy (jsArgFields {} r).error) then
      let ps := jsArgFields {} r
      let startTime := jsNumOr ps.start 0
      let hashrate1m := jsNumOr ps.dsps1 0 * NONCES_PER_SHARE
      { pool with
        users := jsNumOr ps.users 0
        workers := jsNumOr ps.workers 0
        shares := jsNumOr ps.shares 0
        accepted := jsNumOr ps.accepted 0
        rejected := jsNumOr ps.rejected 0
        sps1 := jsNumOr ps.sps1 0
        sps5 := jsNumOr ps.sps5 0
        startTime := startTime
        lastUpdate := jsNumOr ps.update 0
        uptime := if 0 < startTime then ((⌊nowSec⌋ : ℤ) : ℚ) - startTime else 0
        hashrate1m := hashrate1m
        hashrate5m := jsNumOr ps.dsps5 0 * NONCES_PER_SHARE
        hashrate15m := jsNumOr ps.dsps15 0 * NONCES_PER_SHARE
        hashrate1h := jsNumOr ps.dsps60 0 * NONCES_PER_SHARE
        hashrate6h := jsNumOr ps.dsps360 0 * NONCES_PER_SHARE
        hashrate1d := jsNumOr ps.dsps1440 0 * NONCES_PER_SHARE
        hashrate7d := jsNumOr ps.dsps10080 0 * NONCES_PER_SHARE
        hashrate := hashrate1m
        bestDiff := jsNumOr ps.bestdiff 0
        blockHeight := jsNumOr ps.height 0
        networkDiff := jsNumOr ps.diff 0 }
    else pool

/-- The `stratifierstats` fallback block of `parsePoolStats`. -/
def parsePoolFromStratifier (stratifier : Option StratifierRaw)
    (pool : PoolSnapshot) : PoolSnapshot :=
  match stratifier with
  | none => pool
  | some st =>
    if pool.users = 0 then
      { pool with
        users := jsNumOr st.users_count 0
        shares := jsNumOr st.shares_generated (jsNumOr st.shares_count 0) }
    else pool

/-- The `connectorstats` block of `parsePoolStats`. -/
def parsePoolFromConnector (connector : Option ConnectorRaw)
    (pool : PoolSnapshot) : PoolSnapshot :=
  match connector with
  | none => pool
  | some co =>
    let pool := { pool with connections := jsNumOr co.clients_count 0 }
    if pool.workers = 0 then { pool with workers := pool.connections } else pool

/-- `parsePoolStats` from `stats-parser.js` (`nowSec` is `Date.now() / 1000`,
floored where the source floors it). -/
def parsePoolStats (nowSec : ℚ) (poolstats : Option (JsArg PoolRaw))
    (stratifier : Option StratifierRaw) (connector : Option ConnectorRaw) :
    PoolSnapshot :=
  parsePoolFromConnector connector
    (parsePoolFromStratifier stratifier
      (parsePoolFromPoolstats nowSec poolstats emptyPoolSnapshot))

/-! ### Reconciling miner cache (`webui/lib/miner-cache.js`) -/

/-- In-memory cache state: the four dictionaries of `miner-types.json`. -/
structure MinerCache where
  workers : List (String × String)
  users : List (String × String)
  bestDiffs : List (String × ℚ)
  lastSeenAt : List (String × ℚ)
deriving DecidableEq

/-- A persisted cache document as parsed from disk: any of the four top-level
keys may be missing. -/
structure CacheDoc where
  workers : Option (List (String × String)) := none
  users : Option (List (String × String)) := none
  bestDiffs : Option (List (String × ℚ)) := none
  lastSeenAt : Option (List (String × ℚ)) := none
deriving DecidableEq

/-- The backwards-compatibility normalization of `loadCache` applied to a
parsed document: only `bestDiffs` and `lastSeenAt` are defaulted to empty
dictionaries when falsy; `workers` and `users` are returned as stored. -/
def loadCache (doc : CacheDoc) : CacheDoc :=
  { doc with
    bestDiffs := some (doc.bestDiffs.getD [])
    lastSeenAt := some (doc.lastSeenAt.getD []) }

/-- One iteration of the `workers.forEach` loop in `updateBestDiffs`
(`now` is the floored unix-seconds timestamp taken at entry). -/
def updateBestDiffsStep (now : ℚ) (c : MinerCache) (w : WorkerRaw) : MinerCache :=
  let fullName := jsStrOr w.worker (jsStrOr w.workername "")
  if fullName = "" then c
  else
    let c1 := { c with lastSeenAt := mset c.lastSeenAt fullName now }
    let currentBest := max (jsNumOr w.bestever 0)
      (max (jsNumOr w.bestshare 0) (jsNumOr w.bestdiff 0))
    if 0 < currentBest then
      let storedBest := jsNumOr (mget c1.bestDiffs fullName) 0
      if storedBest < currentBest then
        { c1 with bestDiffs := mset c1.bestDiffs fullName currentBest }
      else c1
    else c1

/-- `updateBestDiffs(workers, cache)`: merge the best-difficulty candidates of
every listed worker into the cache (a missing or non-array argument leaves the
cache untouched). -/
def updateBestDiffs (now : ℚ) (ws : Option (List WorkerRaw)) (c : MinerCache) :
    MinerCache :=
  match ws with
  | none => c
  | some l => l.foldl (updateBestDiffsStep now) c

/-- `getBestDiffFromAllSources(fullName, currentBest, cache)`: the maximum of
the stored value, the live API value, and the on-disk worker-file value.
The file value is produced by `readBestDiffFromCkpoolFile`, which does raw
file I/O; it enters here as the `fileBest` argument. Returns the effective
value together with the (possibly updated) cache. -/
def getBestDiffFromAllSources (fullName : String) (currentBest : Option ℚ)
    (fileBest : ℚ) (c : MinerCache) : ℚ × MinerCache :=
  let cachedBest := jsNumOr (mget c.bestDiffs fullName) 0
  let apiBest := jsNumOr currentBest 0
  let maxBest := max cachedBest (max apiBest fileBest)
  if cachedBest < maxBest then
    (maxBest, { c with bestDiffs := mset c.bestDiffs fullName maxBest })
  else (maxBest, c)

/-- One best-difficulty merge call targeted at a fixed identity: either an
`updateBestDiffs` pass whose worker record carries the three candidate fields,
or a `getBestDiffFromAllSources` call with its API and worker-file candidates. -/
inductive MergeCall where
  | fromWorkers (bestever bestshare bestdiff : Option ℚ)
  | fromAllSources (currentBest : Option ℚ) (fileBest : ℚ)
deriving DecidableEq

/-- Apply one merge call for identity `name` through the real cache operations. -/
def applyMergeCall (name : String) (now : ℚ) (c : MinerCache) :
    MergeCall → MinerCache
  | .fromWorkers be bs bd =>
    updateBestDiffs now
      (some [{ worker := some name, bestever := be, bestshare := bs,
               bestdiff := bd }]) c
  | .fromAllSources cb fb => (getBestDiffFromAllSources name cb fb c).2

/-- Apply a sequence of merge calls for identity `name`. -/
def applyMergeCalls (name : String) (now : ℚ) (c : MinerCache)
    (L : List MergeCall) : MinerCache :=
  L.foldl (applyMergeCall name now) c

/-- The candidate values a merge call passes, absent candidates taken as 0. -/
def callCands : MergeCall → List ℚ
  | .fromWorkers be bs bd => [jsNumOr be 0, jsNumOr bs 0, jsNumOr bd 0]
  | .fromAllSources cb fb => [jsNumOr cb 0, fb]

/-- The largest candidate a single call passes. -/
def callMax : MergeCall → ℚ
  | .fromWorkers be bs bd =>
    max (jsNumOr be 0) (max (jsNumOr bs 0) (jsNumOr bd 0))
  | .fromAllSources cb fb => max (jsNumOr cb 0) fb

/-- Modelled from the spec: the maximum of all candidate values ever passed by
a call sequence, with absent candidates taken as 0. -/
def specMaxCandidates (L : List MergeCall) : ℚ :=
  ((L.map callCands).flatten).foldr max 0

/-- The stored best-difficulty view of a cache at one identity, absent read
as 0 (matching `cache.bestDiffs[name] || 0`). -/
def storedBest (c : MinerCache) (name : String) : ℚ :=
  jsNumOr (mget c.bestDiffs name) 0

/-- `pruneInactiveWorkers` loop body for one leaderboard key. -/
def pruneStep (cutoff : ℚ) (st : MinerCache × ℕ) (name : String) :
    MinerCache × ℕ :=
  let c := st.1
  let lastSeen := jsNumOr (mget c.lastSeenAt name) 0
  if 0 < lastSeen ∧ lastSeen < cutoff then
    (⟨mdel c.workers name, c.users, mdel c.bestDiffs name,
      mdel c.lastSeenAt name⟩, st.2 + 1)
  else st

/-- `pruneInactiveWorkers(maxAgeDays)` over an explicit cache and clock:
iterate over the `bestDiffs` keys and drop every entry whose recorded
last-seen time is positive and strictly older than the cutoff. Returns the
updated cache and the number of pruned entries. -/
def pruneInactiveWorkers (maxAgeDays now : ℚ) (c : MinerCache) :
    MinerCache × ℕ :=
  let cutoff := now - maxAgeDays * 86400
  (mkeys c.bestDiffs).foldl (pruneStep cutoff) (c, 0)

/-! ### Framed protocol client (`webui/lib/ckpool-client.js`) -/

/-- 4-byte little-endian encoding of a frame length. -/
def le32enc (n : ℕ) : List ℕ :=
  [n % 256, n / 256 % 256, n / 65536 % 256, n / 16777216 % 256]

/-- `readUInt32LE(0)`: decode the first four accumulated bytes. -/
def le32dec : List ℕ → ℕ
  | b0 :: b1 :: b2 :: b3 :: _ => b0 + 256 * b1 + 65536 * b2 + 16777216 * b3
  | _ => 0

/-- Receive-side state of one `sendCommand` call: the accumulated buffer
(after the length prefix has been sliced off, once read), the decoded
expected length, and the payload the promise resolved with, if any. -/
structure RecvState where
  buffer : List ℕ
  expectedLength : Option ℕ
  resolved : Option (List ℕ)
deriving DecidableEq

/-- The initial receive state of a `sendCommand` call. -/
def recvInit : RecvState :=
  ⟨[], none, none⟩

/-- The `data` event handler of `sendCommand`: append the chunk, read the
length prefix once four bytes are available, and resolve with the payload
slice once enough bytes have accumulated. -/
def sendCommandOnData (st : RecvState) (chunk : List ℕ) : RecvState :=
  let buf1 := st.buffer ++ chunk
  let parsed : Option ℕ × List ℕ :=
    match st.expectedLength with
    | none => if 4 ≤ buf1.length then (some (le32dec buf1), buf1.drop 4)
              else (none, buf1)
    | some n => (some n, buf1)
  let el := parsed.1
  let buf2 := parsed.2
  let res :=
    match el with
    | some n =>
      if st.resolved = none ∧ n ≤ buf2.length then some (buf2.take n)
      else st.resolved
    | none => st.resolved
  ⟨buf2, el, res⟩

/-- Run the receive machine over a sequence of socket `data` chunks. -/
def sendCommandRun (chunks : List (List ℕ)) : RecvState :=
  chunks.foldl sendCommandOnData recvInit

/-! ### Access gate (`webui/lib/api-security.js` and `webui/server.js`) -/

/-- Rate-limit window length in milliseconds. -/
def RATE_LIMIT_WINDOW : ℚ := 60000

/-- Maximum requests per client key per window. -/
def RATE_LIMIT_MAX : ℕ := 120

/-- One per-client entry of the rate-limit store. -/
structure RLData where
  windowStart : ℚ
  count : ℕ
deriving DecidableEq

/-- The `rateLimit` middleware for one request: look up the client's window,
reset it when more than the window length has elapsed since its start, count
the request, and reject with 429 when the count exceeds the maximum. Returns
`true` when the request is allowed, with the updated store. -/
def rateLimit (store : List (String × RLData)) (ip : String) (now : ℚ) :
    Bool × List (String × RLData) :=
  let d0 : RLData :=
    match mget store ip with
    | some d => if RATE_LIMIT_WINDOW < now - d.windowStart then ⟨now, 0⟩ else d
    | none => ⟨now, 0⟩
  let d1 : RLData := ⟨d0.windowStart, d0.count + 1⟩
  let store1 := mset store ip d1
  if RATE_LIMIT_MAX < d1.count then (false, store1) else (true, store1)

/-- Run `rateLimit` for one client key over successive request timestamps,
collecting the allow/reject verdicts in order. -/
def rateLimitSeq (store : List (String × RLData)) (ip : String) :
    List ℚ → List Bool
  | [] => []
  | t :: ts =>
    let r := rateLimit store ip t
    r.1 :: rateLimitSeq r.2 ip ts

/-- An incoming HTTP request as seen by the `/api` middleware chain. -/
structure ApiRequest where
  path : String
  xPoolRequest : Option String := none
  xPoolToken : Option String := none
  origin : Option String := none
  referer : Option String := none
  host : Option String := none
  ip : Option String := none
  remoteAddress : Option String := none
deriving DecidableEq

/-- Verdict of the `protectApi` middleware. -/
inductive GateResult where
  | next
  | forbidden (msg : String)
deriving DecidableEq

/-- Is the verdict a 403 rejection. -/
def GateResult.isForbidden : GateResult → Bool
  | .next => false
  | .forbidden _ => true

/-- The `protectApi` middleware: `/health` passes unconditionally; otherwise
the marker header, the instance token, and the origin/referer are checked in
that order. -/
def protectApi (apiToken : String) (req : ApiRequest) : GateResult :=
  if req.path = "/health" then .next
  else if req.xPoolRequest ≠ some "internal" then
    .forbidden "Direct API access not allowed"
  else if req.xPoolToken ≠ some apiToken then
    .forbidden "Invalid or missing API token"
  else
    let origin := (req.origin).getD ""
    let referer := (req.referer).getD ""
    let host := (req.host).getD ""
    let isValidOrigin := (origin == "") || strIncludes origin host ||
      strIncludes origin "localhost" || strIncludes origin "127.0.0.1"
    let isValidReferer := (referer == "") || strIncludes referer host ||
      strIncludes referer "localhost" || strIncludes referer "127.0.0.1"
    if !isValidOrigin && !isValidReferer then
      .forbidden "Cross-origin requests not allowed"
    else .next

/-- The client key of the rate limiter:
`req.ip || req.connection.remoteAddress || 'unknown'`. -/
def clientKey (req : ApiRequest) : String :=
  jsStrOr req.ip (jsStrOr req.remoteAddress "unknown")

/-- Outcome of the `/api` middleware chain mounted in `server.js`. -/
inductive ApiOutcome where
  | handled
  | tooManyRequests
  | forbiddenOutcome (msg : String)
deriving DecidableEq

/-- The `/api` mount `app.use('/api', rateLimit, protectApi, apiRoutes)`:
the rate limiter runs first on every request, then authentication. -/
def apiMiddleware (apiToken : String) (store : List (String × RLData))
    (req : ApiRequest) (now : ℚ) : ApiOutcome × List (String × RLData) :=
  let r := rateLimit store (clientKey req) now
  if r.1 = false then (.tooManyRequests, r.2)
  else
    match protectApi apiToken req with
    | .next => (.handled, r.2)
    | .forbidden m => (.forbiddenOutcome m, r.2)

/-! ### Helper lemmas -/

theorem jsNumOr_zero (o : Option ℚ) : jsNumOr o 0 = o.getD 0 := by
  cases o with
  | none => rfl
  | some v => by_cases h : v = 0 <;> simp [jsNumOr, h]

/-- Modelled from the spec: the maximum across whichever candidate
best-difficulty fields exist in a record (candidate list in source order). -/
def specMaxPresent (l : List (Option ℚ)) : ℚ :=
  (l.filterMap id).foldr max 0

/-- Modelled from the spec (amended): the first present and non-zero
candidate field, in priority order, else 0. -/
def specFirstTruthy : List (Option ℚ) → ℚ
  | [] => 0
  | none :: rest => specFirstTruthy rest
  | some v :: rest => if v = 0 then specFirstTruthy rest else v

theorem specFirstTruthy_eq_foldr (l : List (Option ℚ)) :
    specFirstTruthy l = l.foldr (fun o acc => jsNumOr o acc) 0 := by
  induction l with
  | nil => rfl
  | cons hd t ih =>
    cases hd with
    | none => simp [specFirstTruthy, jsNumOr, ih]
    | some v => by_cases h : v = 0 <;> simp [specFirstTruthy, jsNumOr, h, ih]

/-! ### Claim C5 -/

theorem stratifier_preserves_hashrates (st : Option StratifierRaw)
    (pool : PoolSnapshot) :
    (parsePoolFromStratifier st pool).hashrate = pool.hashrate
    ∧ (parsePoolFromStratifier st pool).hashrate1m = pool.hashrate1m
    ∧ (parsePoolFromStratifier st pool).hashrate5m = pool.hashrate5m
    ∧ (parsePoolFromStratifier st pool).hashrate15m = pool.hashrate15m
    ∧ (parsePoolFromStratifier st pool).hashrate1h = pool.hashrate1h
    ∧ (parsePoolFromStratifier st pool).hashrate6h = pool.hashrate6h
    ∧ (parsePoolFromStratifier st pool).hashrate1d = pool.hashrate1d
    ∧ (parsePoolFromStratifier st pool).hashrate7d = pool.hashrate7d := by
  cases st <;> simp [parsePoolFromStratifier] <;> split <;> simp

theorem connector_preserves_hashrates (co : Option ConnectorRaw)
    (pool : PoolSnapshot) :
    (parsePoolFromConnector co pool).hashrate = pool.hashrate
    ∧ (parsePoolFromConnector co pool).hashrate1m = pool.hashrate1m
    ∧ (parsePoolFromConnector co pool).hashrate5m = pool.hashrate5m
    ∧ (parsePoolFromConnector co pool).hashrate15m = pool.hashrate15m
    ∧ (parsePoolFromConnector co pool).hashrate1h = pool.hashrate1h
    ∧ (parsePoolFromConnector co pool).hashrate6h = pool.hashrate6h
    ∧ (parsePoolFromConnector co pool).hashrate1d = pool.hashrate1d
    ∧ (parsePoolFromConnector co pool).hashrate7d = pool.hashrate7d := by
  cases co <;> simp [parsePoolFromConnector] <;> split <;> simp

/-- C5: for every non-error `poolstats` payload, each horizon hashrate is the
corresponding dsps counter times `2^32` with absent counters treated as 0, the
headline hashrate being the 1-minute value; in particular `dsps1 = 2.5` yields
`hashrate1m = 10737418240`. -/
theorem parsePoolStats_hashrates (nowSec : ℚ) (ps : PoolRaw)
    (st : Option StratifierRaw) (co : Option ConnectorRaw)
    (herr : jsStrTruthy ps.error = false) :
    (parsePoolStats nowSec (some (.obj ps)) st co).hashrate1m
        = ps.dsps1.getD 0 * NONCES_PER_SHARE
    ∧ (parsePoolStats nowSec (some (.obj ps)) st co).hashrate5m
        = ps.dsps5.getD 0 * NONCES_PER_SHARE
    ∧ (parsePoolStats nowSec (some (.obj ps)) st co).hashrate15m
        = ps.dsps15.getD 0 * NONCES_PER_SHARE
    ∧ (parsePoolStats nowSec (some (.obj ps)) st co).hashrate1h
        = ps.dsps60.getD 0 * NONCES_PER_SHARE
    ∧ (parsePoolStats nowSec (some (.obj ps)) st co).hashrate6h
        = ps.dsps360.getD 0 * NONCES_PER_SHARE
    ∧ (parsePoolStats nowSec (some (.obj ps)) st co).hashrate1d
        = ps.dsps1440.getD 0 * NONCES_PER_SHARE
    ∧ (parsePoolStats nowSec (some (.obj ps)) st co).hashrate7d
        = ps.dsps10080.getD 0 * NONCES_PER_SHARE
    ∧ (parsePoolStats nowSec (some (.obj ps)) st co).hashrate
        = (parsePoolStats nowSec (some (.obj ps)) st co).hashrate1m
    ∧ (parsePoolStats 0 (some (.obj { dsps1 := some (5/2) })) none none).hashrate1m
        = 10737418240 := by
  have hs := stratifier_preserves_hashrates st
    (parsePoolFromPoolstats nowSec (some (.obj ps)) emptyPoolSnapshot)
  have hc := connector_preserves_hashrates co
    (parsePoolFromStratifier st
      (parsePoolFromPoolstats nowSec (some (.obj ps)) emptyPoolSnapshot))
  have hbase : ∀ q : PoolSnapshot,
      parsePoolFromPoolstats nowSec (some (.obj ps)) q
        = { q with
            users := jsNumOr ps.users 0
            workers := jsNumOr ps.workers 0
            shares := jsNumOr ps.shares 0
            accepted := jsNumOr ps.accepted 0
            rejected := jsNumOr ps.rejected 0
            sps1 := jsNumOr ps.sps1 0
            sps5 := jsNumOr ps.sps5 0
            startTime := jsNumOr ps.start 0
            lastUpdate := jsNumOr ps.update 0
            uptime := if 0 < jsNumOr ps.start 0
              then ((⌊nowSec⌋ : ℤ) : ℚ) - jsNumOr ps.start 0 else 0
            hashrate1m := jsNumOr ps.dsps1 0 * NONCES_PER_SHARE
            hashrate5m := jsNumOr ps.dsps5 0 * NONCES_PER_SHARE
            hashrate15m := jsNumOr ps.dsps15 0 * NONCES_PER_SHARE
            hashrate1h := jsNumOr ps.dsps60 0 * NONCES_PER_SHARE
            hashrate6h := jsNumOr ps.dsps360 0 * NONCES_PER_SHARE
            hashrate1d := jsNumOr ps.dsps1440 0 * NONCES_PER_SHARE
            hashrate7d := jsNumOr ps.dsps10080 0 * NONCES_PER_SHARE
            hashrate := jsNumOr ps.dsps1 0 * NONCES_PER_SHARE
            bestDiff := jsNumOr ps.bestdiff 0
            blockHeight := jsNumOr ps.height 0
            networkDiff := jsNumOr ps.diff 0 } := by
    intro q
    simp [parsePoolFromPoolstats, jsArgTruthy, jsArgFields, herr]
  have hlast : (parsePoolStats 0 (some (.obj { dsps1 := some (5/2) })) none none).hashrate1m
      = 10737418240 := by
    norm_num [parsePoolStats, parsePoolFromPoolstats, parsePoolFromStratifier,
      parsePoolFromConnector, emptyPoolSnapshot, jsArgTruthy, jsArgFields,
      jsStrTruthy, jsNumOr, NONCES_PER_SHARE]
  refine ⟨(hc.2.1.trans hs.2.1).trans ?_, (hc.2.2.1.trans hs.2.2.1).trans ?_,
    (hc.2.2.2.1.trans hs.2.2.2.1).trans ?_,
    (hc.2.2.2.2.1.trans hs.2.2.2.2.1).trans ?_,
    (hc.2.2.2.2.2.1.trans hs.2.2.2.2.2.1).trans ?_,
    (hc.2.2.2.2.2.2.1.trans hs.2.2.2.2.2.2.1).trans ?_,
    (hc.2.2.2.2.2.2.2.trans hs.2.2.2.2.2.2.2).trans ?_,
    (hc.1.trans hs.1).trans (Eq.trans ?_ (hc.2.1.trans hs.2.1).symm), hlast⟩ <;>
    rw [hbase] <;> simp [jsNumOr_zero]

theorem parsePoolStats_hashrates_witness :
    (parsePoolStats 3 (some (.obj { dsps1 := some 7 })) none none).hashrate1m
      = (some (7 : ℚ)).getD 0 * NONCES_PER_SHARE :=
  (parsePoolStats_hashrates 3 { dsps1 := some 7 } none none (by decide)).1

/-! ### Claim C6 -/

/-- C6: error-shaped daemon responses — an object carrying an explicit
(non-empty) error field, or the sentinel string `"unknown"` — normalize to an
absence value (`none`), never a zero-valued record, for both the user and the
worker normalizer. -/
theorem parse_error_shaped (nowSec : ℚ) :
    (∀ o : UserRaw, jsStrTruthy o.error = true →
      parseUserStats nowSec (some (.obj o)) = none)
    ∧ parseUserStats nowSec (some (.str "unknown")) = none
    ∧ (∀ w : WorkerRaw, jsStrTruthy w.error = true →
      parseWorkerStats (some (.obj w)) = none)
    ∧ parseWorkerStats (some (.str "unknown")) = none := by
  refine ⟨fun o h => ?_, ?_, fun w h => ?_, ?_⟩
  · simp [parseUserStats, userErrorCheck, jsArgTruthy, jsArgFields, h]
  · simp [parseUserStats, userErrorCheck, jsArgTruthy, jsArgFields]
  · simp [parseWorkerStats, workerErrorCheck, jsArgTruthy, jsArgFields, h]
  · simp [parseWorkerStats, workerErrorCheck, jsArgTruthy, jsArgFields]

theorem parse_error_shaped_witness :
    parseUserStats 0 (some (.obj { error := some "unknown" })) = none :=
  (parse_error_shaped 0).1 { error := some "unknown" } (by decide)

/-! ### Claim C2 -/

/-- C2 counterexample: a record carrying `bestever = 1` and `bestshare = 2`
normalizes to `bestDiff = 1` (first-present-wins in priority order), not to
the maximum 2 of the present candidate fields. -/
theorem parseUserStats_bestDiff_not_max :
    (parseUserStats 0 (some (.obj { bestever := some 1, bestshare := some 2 }))).map
        (fun u => u.bestDiff) = some 1
    ∧ specMaxPresent [some 1, some 2, none, none] = 2
    ∧ (1 : ℚ) ≠ 2 := by
  refine ⟨?_, by decide, by norm_num⟩
  norm_num [parseUserStats, userErrorCheck, jsArgTruthy, jsArgFields, jsStrTruthy,
    buildUserStats, jsNumOr, jsStrOr]

/-- C2 (amended): the normalized `bestDiff` of a non-error user or worker
record is the first present and non-zero candidate among `bestever`,
`bestshare`, `bestdiff`, `best_diff` in that priority order (0 when none is),
not the maximum over the present candidates. -/
theorem parse_bestDiff_first_truthy (nowSec : ℚ) (o : UserRaw) (w : WorkerRaw)
    (hu : jsStrTruthy o.error = false) (hw : jsStrTruthy w.error = false) :
    (parseUserStats nowSec (some (.obj o))).map (fun u => u.bestDiff)
      = some (specFirstTruthy [o.bestever, o.bestshare, o.bestdiff, o.best_diff])
    ∧ (parseWorkerStats (some (.obj w))).map (fun s => s.bestDiff)
      = some (specFirstTruthy [w.bestever, w.bestshare, w.bestdiff, w.best_diff]) := by
  constructor
  · simp [parseUserStats, userErrorCheck, jsArgTruthy, jsArgFields, hu,
      buildUserStats, specFirstTruthy_eq_foldr]
  · simp [parseWorkerStats, workerErrorCheck, jsArgTruthy, jsArgFields, hw,
      buildWorkerStats, specFirstTruthy_eq_foldr]

theorem parse_bestDiff_first_truthy_witness :
    (parseUserStats 0 (some (.obj { bestever := some 3 }))).map (fun u => u.bestDiff)
      = some (specFirstTruthy [some 3, none, none, none]) :=
  (parse_bestDiff_first_truthy 0 { bestever := some 3 } {} (by decide) (by decide)).1

/-! ### Claim C7 -/

/-- C7 counterexample: a persisted document missing the `workers` key loads to
a cache still missing the `workers` key — it is not defaulted to an empty
mapping, contrary to the claim that every missing top-level key is. -/
theorem loadCache_missing_workers_not_defaulted :
    (loadCache { users := some [], bestDiffs := some [], lastSeenAt := some [] }).workers
        = none
    ∧ (loadCache { users := some [], bestDiffs := some [], lastSeenAt := some [] }).workers
        ≠ some [] := by
  constructor
  · rfl
  · simp [loadCache]

/-- C7 (amended): on load, only the missing `bestDiffs` and `lastSeenAt` keys
are defaulted to empty mappings; `workers` and `users` are returned exactly as
stored (and so stay missing when the document lacks them), while every key
that was present keeps its stored contents. -/
theorem loadCache_defaults (d : CacheDoc) :
    (loadCache d).workers = d.workers
    ∧ (loadCache d).users = d.users
    ∧ (loadCache d).bestDiffs = some (d.bestDiffs.getD [])
    ∧ (loadCache d).lastSeenAt = some (d.lastSeenAt.getD []) := by
  refine ⟨rfl, rfl, rfl, rfl⟩

/-! ### Claim C1 -/

theorem jsNumOr_some_of_ne (v : ℚ) (h : v ≠ 0) : jsNumOr (some v) 0 = v := by
  simp [jsNumOr, h]

theorem updateBestDiffsStep_storedBest (now : ℚ) (c : MinerCache)
    (w : WorkerRaw) (name : String) (hw : w.worker = some name)
    (hname : name ≠ "") (hc : 0 ≤ storedBest c name) :
    storedBest (updateBestDiffsStep now c w) name
      = max (storedBest c name)
          (max (jsNumOr w.bestever 0)
            (max (jsNumOr w.bestshare 0) (jsNumOr w.bestdiff 0))) := by
  have hfn : jsStrOr w.worker (jsStrOr w.workername "") = name := by
    simp [hw, jsStrOr, hname]
  by_cases h1 : 0 < max (jsNumOr w.bestever 0)
      (max (jsNumOr w.bestshare 0) (jsNumOr w.bestdiff 0))
  · by_cases h2 : jsNumOr (mget c.bestDiffs name) 0 < max (jsNumOr w.bestever 0)
        (max (jsNumOr w.bestshare 0) (jsNumOr w.bestdiff 0))
    · have hres : updateBestDiffsStep now c w
          = ⟨c.workers, c.users,
             mset c.bestDiffs name
               (max (jsNumOr w.bestever 0)
                 (max (jsNumOr w.bestshare 0) (jsNumOr w.bestdiff 0))),
             mset c.lastSeenAt name now⟩ := by
        simp only [updateBestDiffsStep, hfn]
        rw [if_neg hname, if_pos h1, if_pos h2]
      rw [hres]
      simp only [storedBest, mget_mset_self]
      rw [jsNumOr_some_of_ne _ (ne_of_gt h1), max_eq_right h2.le]
    · have hres : updateBestDiffsStep now c w
          = ⟨c.workers, c.users, c.bestDiffs, mset c.lastSeenAt name now⟩ := by
        simp only [updateBestDiffsStep, hfn]
        rw [if_neg hname, if_pos h1, if_neg h2]
      rw [hres]
      simp only [storedBest]
      rw [max_eq_left (le_of_not_lt h2)]
  · have hres : updateBestDiffsStep now c w
        = ⟨c.workers, c.users, c.bestDiffs, mset c.lastSeenAt name now⟩ := by
      simp only [updateBestDiffsStep, hfn]
      rw [if_neg hname, if_neg h1]
    rw [hres]
    simp only [storedBest] at hc ⊢
    rw [max_eq_left (le_trans (le_of_not_lt h1) hc)]

theorem le_jsNumOr_some_of_lt (s v : ℚ) (h : s < v) : s ≤ jsNumOr (some v) 0 := by
  by_cases hv : v = 0
  · subst hv
    simpa [jsNumOr] using h.le
  · simpa [jsNumOr, hv] using h.le

theorem applyMergeCall_storedBest (name : String) (now : ℚ) (c : MinerCache)
    (k : MergeCall) (hname : name ≠ "") (hc : 0 ≤ storedBest c name) :
    storedBest (applyMergeCall name now c k) name
      = max (storedBest c name) (callMax k) := by
  cases k with
  | fromWorkers be bs bd =>
    simp only [applyMergeCall, updateBestDiffs, List.foldl, callMax]
    exact updateBestDiffsStep_storedBest now c _ name rfl hname hc
  | fromAllSources cb fb =>
    simp only [applyMergeCall, callMax]
    by_cases hlt : jsNumOr (mget c.bestDiffs name) 0
        < max (jsNumOr (mget c.bestDiffs name) 0) (max (jsNumOr cb 0) fb)
    · have hres : (getBestDiffFromAllSources name cb fb c).2
          = ⟨c.workers, c.users,
             mset c.bestDiffs name
               (max (jsNumOr (mget c.bestDiffs name) 0) (max (jsNumOr cb 0) fb)),
             c.lastSeenAt⟩ := by
        simp only [getBestDiffFromAllSources]
        rw [if_pos hlt]
      rw [hres]
      simp only [storedBest, mget_mset_self]
      have hpos : (0:ℚ) < max (jsNumOr (mget c.bestDiffs name) 0)
          (max (jsNumOr cb 0) fb) := by
        simp only [storedBest] at hc
        linarith
      rw [jsNumOr_some_of_ne _ (ne_of_gt hpos)]
    · have hres : (getBestDiffFromAllSources name cb fb c).2 = c := by
        simp only [getBestDiffFromAllSources]
        rw [if_neg hlt]
      rw [hres]
      simp only [storedBest]
      have : max (jsNumOr (mget c.bestDiffs name) 0) (max (jsNumOr cb 0) fb)
          = jsNumOr (mget c.bestDiffs name) 0 := by
        rcases max_cases (jsNumOr (mget c.bestDiffs name) 0) (max (jsNumOr cb 0) fb) with
          ⟨h, _⟩ | ⟨h, h2⟩
        · exact h
        · exact absurd (h ▸ hlt) (by simp [h]; linarith)
      exact this.symm

theorem applyMergeCall_storedBest_mono (name : String) (now : ℚ) (c : MinerCache)
    (k : MergeCall) (x : String) :
    storedBest c x ≤ storedBest (applyMergeCall name now c k) x := by
  cases k with
  | fromWorkers be bs bd =>
    simp only [applyMergeCall, updateBestDiffs, List.foldl]
    by_cases hn : name = ""
    · have hres : updateBestDiffsStep now c
          { worker := some name, bestever := be, bestshare := bs, bestdiff := bd }
            = c := by
        simp [updateBestDiffsStep, jsStrOr, hn]
      rw [hres]
    · have hfn : jsStrOr (some name) (jsStrOr none "") = name := by
        simp [jsStrOr, hn]
      by_cases h1 : 0 < max (jsNumOr be 0) (max (jsNumOr bs 0) (jsNumOr bd 0))
      · by_cases h2 : jsNumOr (mget c.bestDiffs name) 0
            < max (jsNumOr be 0) (max (jsNumOr bs 0) (jsNumOr bd 0))
        · have hres : updateBestDiffsStep now c
              { worker := some name, bestever := be, bestshare := bs,
                bestdiff := bd }
              = ⟨c.workers, c.users,
                 mset c.bestDiffs name
                   (max (jsNumOr be 0) (max (jsNumOr bs 0) (jsNumOr bd 0))),
                 mset c.lastSeenAt name now⟩ := by
            simp only [updateBestDiffsStep, hfn]
            rw [if_neg hn, if_pos h1, if_pos h2]
          rw [hres]
          by_cases hx : x = name
          · subst hx
            simp only [storedBest, mget_mset_self]
            exact le_jsNumOr_some_of_lt _ _ h2
          · simp only [storedBest, mget_mset_ne _ _ _ _ hx]
            exact le_rfl
        · have hres : updateBestDiffsStep now c
              { worker := some name, bestever := be, bestshare := bs,
                bestdiff := bd }
              = ⟨c.workers, c.users, c.bestDiffs, mset c.lastSeenAt name now⟩ := by
            simp only [updateBestDiffsStep, hfn]
            rw [if_neg hn, if_pos h1, if_neg h2]
          rw [hres]
          exact le_rfl
      · have hres : updateBestDiffsStep now c
            { worker := some name, bestever := be, bestshare := bs,
              bestdiff := bd }
            = ⟨c.workers, c.users, c.bestDiffs, mset c.lastSeenAt name now⟩ := by
          simp only [updateBestDiffsStep, hfn]
          rw [if_neg hn, if_neg h1]
        rw [hres]
        exact le_rfl
  | fromAllSources cb fb =>
    simp only [applyMergeCall]
    by_cases hlt : jsNumOr (mget c.bestDiffs name) 0
        < max (jsNumOr (mget c.bestDiffs name) 0) (max (jsNumOr cb 0) fb)
    · have hres : (getBestDiffFromAllSources name cb fb c).2
          = ⟨c.workers, c.users,
             mset c.bestDiffs name
               (max (jsNumOr (mget c.bestDiffs name) 0) (max (jsNumOr cb 0) fb)),
             c.lastSeenAt⟩ := by
        simp only [getBestDiffFromAllSources]
        rw [if_pos hlt]
      rw [hres]
      by_cases hx : x = name
      · subst hx
        simp only [storedBest, mget_mset_self]
        exact le_jsNumOr_some_of_lt _ _ hlt
      · simp only [storedBest, mget_mset_ne _ _ _ _ hx]
        exact le_rfl
    · have hres : (getBestDiffFromAllSources name cb fb c).2 = c := by
        simp only [getBestDiffFromAllSources]
        rw [if_neg hlt]
      rw [hres]

theorem applyMergeCalls_storedBest (name : String) (now : ℚ) (c : MinerCache)
    (L : List MergeCall) (hname : name ≠ "") (hc : 0 ≤ storedBest c name) :
    storedBest (applyMergeCalls name now c L) name
      = L.foldl (fun a k => max a (callMax k)) (storedBest c name) := by
  induction L generalizing c with
  | nil => rfl
  | cons k L ih =>
    have h1 := applyMergeCall_storedBest name now c k hname hc
    have hge : 0 ≤ storedBest (applyMergeCall name now c k) name := by
      rw [h1]
      exact le_max_of_le_left hc
    have hstep : applyMergeCalls name now c (k :: L)
        = applyMergeCalls name now (applyMergeCall name now c k) L := rfl
    rw [hstep, ih _ hge, h1]
    rfl

theorem foldr_max_callCands (k : MergeCall) (B : ℚ) :
    (callCands k).foldr max B = max (callMax k) B := by
  cases k <;> simp [callCands, callMax, max_assoc]

theorem specMaxCandidates_cons (k : MergeCall) (L : List MergeCall) :
    specMaxCandidates (k :: L) = max (callMax k) (specMaxCandidates L) := by
  simp only [specMaxCandidates, List.map_cons, List.flatten_cons, List.foldr_append]
  exact foldr_max_callCands k _

theorem foldl_callMax_shift (L : List MergeCall) (a b : ℚ) :
    L.foldl (fun v k => max v (callMax k)) (max a b)
      = max a (L.foldl (fun v k => max v (callMax k)) b) := by
  induction L generalizing b with
  | nil => rfl
  | cons k L ih =>
    simp only [List.foldl]
    rw [max_assoc, ih]

theorem foldl_callMax_eq_spec (L : List MergeCall) :
    L.foldl (fun v k => max v (callMax k)) 0 = specMaxCandidates L := by
  induction L with
  | nil => rfl
  | cons k L ih =>
    have : (0:ℚ) ⊔ callMax k = callMax k ⊔ 0 := max_comm _ _
    simp only [List.foldl]
    rw [this, foldl_callMax_shift, ih, specMaxCandidates_cons]

theorem specMaxCandidates_perm {L1 L2 : List MergeCall} (h : L1.Perm L2) :
    specMaxCandidates L1 = specMaxCandidates L2 := by
  induction h with
  | nil => rfl
  | cons x _ ih => rw [specMaxCandidates_cons, ih, specMaxCandidates_cons]
  | swap x y l =>
    rw [specMaxCandidates_cons, specMaxCandidates_cons, specMaxCandidates_cons,
      specMaxCandidates_cons, max_left_comm]
  | trans _ _ ih1 ih2 => rw [ih1, ih2]

/-- C1: starting from an identity with no stored best difficulty, after any
finite sequence of merge calls (`updateBestDiffs` passes and
`getBestDiffFromAllSources` calls) the stored `bestDiffs` value (absent read
as 0) equals the maximum of all candidate values ever passed with absent
candidates taken as 0, independently of the order of the calls; and no merge
ever replaces a stored value with a strictly lower one. -/
theorem mergeBestDifficulty_max_invariant (name : String) (now : ℚ)
    (c : MinerCache) (L : List MergeCall) (hname : name ≠ "")
    (hnone : mget c.bestDiffs name = none) :
    storedBest (applyMergeCalls name now c L) name = specMaxCandidates L
    ∧ (∀ L2 : List MergeCall, L2.Perm L →
        storedBest (applyMergeCalls name now c L2) name
          = storedBest (applyMergeCalls name now c L) name)
    ∧ (∀ (c2 : MinerCache) (k : MergeCall) (x : String),
        storedBest c2 x ≤ storedBest (applyMergeCall name now c2 k) x) := by
  have h0 : storedBest c name = 0 := by simp [storedBest, hnone, jsNumOr]
  have key : ∀ L' : List MergeCall,
      storedBest (applyMergeCalls name now c L') name = specMaxCandidates L' := by
    intro L'
    rw [applyMergeCalls_storedBest name now c L' hname (by rw [h0]), h0,
      foldl_callMax_eq_spec]
  exact ⟨key L,
    fun L2 hp => by rw [key L2, key L, specMaxCandidates_perm hp],
    fun c2 k x => applyMergeCall_storedBest_mono name now c2 k x⟩

theorem mergeBestDifficulty_max_invariant_witness :
    storedBest (applyMergeCalls "a" 7 ⟨[], [], [], []⟩
      [MergeCall.fromWorkers (some 5) none none,
       MergeCall.fromAllSources (some 3) 2]) "a"
    = specMaxCandidates
      [MergeCall.fromWorkers (some 5) none none,
       MergeCall.fromAllSources (some 3) 2] :=
  (mergeBestDifficulty_max_invariant "a" 7 ⟨[], [], [], []⟩
    [MergeCall.fromWorkers (some 5) none none,
     MergeCall.fromAllSources (some 3) 2] (by decide) rfl).1

/-! ### Claims C3 and C10 -/

theorem mget_eq_none_of_not_mem_keys {α : Type} (m : List (String × α))
    (x : String) (hx : x ∉ mkeys m) : mget m x = none := by
  induction m with
  | nil => rfl
  | cons hd t ih =>
    obtain ⟨k2, w⟩ := hd
    simp only [mkeys, List.map_cons, List.mem_cons, not_or] at hx
    have hne : ¬ k2 = x := fun h => hx.1 h.symm
    simpa [mget, hne] using ih (by simpa [mkeys] using hx.2)

theorem pruneStep_preserve (cutoff : ℚ) (st : MinerCache × ℕ) (n x : String)
    (hx : x ≠ n) :
    mget (pruneStep cutoff st n).1.bestDiffs x = mget st.1.bestDiffs x
    ∧ mget (pruneStep cutoff st n).1.lastSeenAt x = mget st.1.lastSeenAt x
    ∧ mget (pruneStep cutoff st n).1.workers x = mget st.1.workers x := by
  simp only [pruneStep]
  split
  · exact ⟨mget_mdel_ne _ _ _ hx, mget_mdel_ne _ _ _ hx, mget_mdel_ne _ _ _ hx⟩
  · exact ⟨rfl, rfl, rfl⟩

theorem pruneStep_users (cutoff : ℚ) (st : MinerCache × ℕ) (n : String) :
    (pruneStep cutoff st n).1.users = st.1.users := by
  simp only [pruneStep]
  split <;> rfl

theorem pruneFold_untouched (cutoff : ℚ) :
    ∀ (ns : List String) (st : MinerCache × ℕ) (x : String), x ∉ ns →
    mget ((ns.foldl (pruneStep cutoff) st).1.bestDiffs) x = mget st.1.bestDiffs x
    ∧ mget ((ns.foldl (pruneStep cutoff) st).1.lastSeenAt) x
        = mget st.1.lastSeenAt x
    ∧ mget ((ns.foldl (pruneStep cutoff) st).1.workers) x
        = mget st.1.workers x := by
  intro ns
  induction ns with
  | nil => exact fun st x _ => ⟨rfl, rfl, rfl⟩
  | cons n ns ih =>
    intro st x hx
    simp only [List.mem_cons, not_or] at hx
    obtain ⟨h1, h2, h3⟩ := pruneStep_preserve cutoff st n x hx.1
    obtain ⟨g1, g2, g3⟩ := ih (pruneStep cutoff st n) x hx.2
    rw [List.foldl_cons]
    exact ⟨g1.trans h1, g2.trans h2, g3.trans h3⟩

theorem pruneFold_users (cutoff : ℚ) :
    ∀ (ns : List String) (st : MinerCache × ℕ),
    (ns.foldl (pruneStep cutoff) st).1.users = st.1.users := by
  intro ns
  induction ns with
  | nil => exact fun st => rfl
  | cons n ns ih =>
    intro st
    rw [List.foldl_cons]
    exact (ih (pruneStep cutoff st n)).trans (pruneStep_users cutoff st n)

theorem pruneFold_sublist (cutoff : ℚ) :
    ∀ (ns : List String) (st : MinerCache × ℕ),
    ((ns.foldl (pruneStep cutoff) st).1.bestDiffs).Sublist st.1.bestDiffs := by
  intro ns
  induction ns with
  | nil => exact fun st => List.Sublist.refl _
  | cons n ns ih =>
    intro st
    rw [List.foldl_cons]
    refine (ih (pruneStep cutoff st n)).trans ?_
    simp only [pruneStep]
    split
    · exact mdel_sublist _ _
    · exact List.Sublist.refl _

theorem pruneFold_processed (cutoff : ℚ) :
    ∀ (ns : List String), ns.Nodup → ∀ (x : String), x ∈ ns →
    ∀ (st : MinerCache × ℕ),
    (mget ((ns.foldl (pruneStep cutoff) st).1.bestDiffs) x
      = if 0 < jsNumOr (mget st.1.lastSeenAt x) 0
            ∧ jsNumOr (mget st.1.lastSeenAt x) 0 < cutoff
        then none else mget st.1.bestDiffs x)
    ∧ (mget ((ns.foldl (pruneStep cutoff) st).1.lastSeenAt) x
      = if 0 < jsNumOr (mget st.1.lastSeenAt x) 0
            ∧ jsNumOr (mget st.1.lastSeenAt x) 0 < cutoff
        then none else mget st.1.lastSeenAt x)
    ∧ (mget ((ns.foldl (pruneStep cutoff) st).1.workers) x
      = if 0 < jsNumOr (mget st.1.lastSeenAt x) 0
            ∧ jsNumOr (mget st.1.lastSeenAt x) 0 < cutoff
        then none else mget st.1.workers x) := by
  intro ns
  induction ns with
  | nil =>
    intro _ x hx
    simp at hx
  | cons n ns ih =>
    intro hnd x hx st
    rw [List.foldl_cons]
    rcases List.mem_cons.mp hx with hxn | hxmem
    · subst hxn
      have hnotin : x ∉ ns := (List.nodup_cons.mp hnd).1
      obtain ⟨p1, p2, p3⟩ :=
        pruneFold_untouched cutoff ns (pruneStep cutoff st x) x hnotin
      by_cases hcond : 0 < jsNumOr (mget st.1.lastSeenAt x) 0
          ∧ jsNumOr (mget st.1.lastSeenAt x) 0 < cutoff
      · have hstep : pruneStep cutoff st x
            = (⟨mdel st.1.workers x, st.1.users, mdel st.1.bestDiffs x,
                mdel st.1.lastSeenAt x⟩, st.2 + 1) := by
          simp only [pruneStep]
          rw [if_pos hcond]
        rw [if_pos hcond, if_pos hcond, if_pos hcond]
        refine ⟨p1.trans ?_, p2.trans ?_, p3.trans ?_⟩ <;>
          rw [hstep] <;> exact mget_mdel_self _ _
      · have hstep : pruneStep cutoff st x = st := by
          simp only [pruneStep]
          rw [if_neg hcond]
        rw [if_neg hcond, if_neg hcond, if_neg hcond]
        exact ⟨p1.trans (by rw [hstep]), p2.trans (by rw [hstep]),
          p3.trans (by rw [hstep])⟩
    · have hxn : x ≠ n := fun h => (List.nodup_cons.mp hnd).1 (h ▸ hxmem)
      obtain ⟨q1, q2, q3⟩ := pruneStep_preserve cutoff st n x hxn
      have ihh := ih (List.nodup_cons.mp hnd).2 x hxmem (pruneStep cutoff st n)
      rw [q1, q2, q3] at ihh
      exact ihh

theorem pruneFold_count (cutoff : ℚ) :
    ∀ (ns : List String), ns.Nodup → ∀ (st : MinerCache × ℕ),
    (ns.foldl (pruneStep cutoff) st).2
      = st.2 + (ns.filter (fun n =>
          decide (0 < jsNumOr (mget st.1.lastSeenAt n) 0
            ∧ jsNumOr (mget st.1.lastSeenAt n) 0 < cutoff))).length := by
  intro ns
  induction ns with
  | nil => exact fun _ st => rfl
  | cons n ns ih =>
    intro hnd st
    rw [List.foldl_cons]
    have hnotin : n ∉ ns := (List.nodup_cons.mp hnd).1
    by_cases hcond : 0 < jsNumOr (mget st.1.lastSeenAt n) 0
        ∧ jsNumOr (mget st.1.lastSeenAt n) 0 < cutoff
    · have hstep : pruneStep cutoff st n
          = (⟨mdel st.1.workers n, st.1.users, mdel st.1.bestDiffs n,
              mdel st.1.lastSeenAt n⟩, st.2 + 1) := by
        simp only [pruneStep]
        rw [if_pos hcond]
      have hfc : ∀ m ∈ ns,
          (decide (0 < jsNumOr (mget (pruneStep cutoff st n).1.lastSeenAt m) 0
            ∧ jsNumOr (mget (pruneStep cutoff st n).1.lastSeenAt m) 0 < cutoff))
          = (decide (0 < jsNumOr (mget st.1.lastSeenAt m) 0
            ∧ jsNumOr (mget st.1.lastSeenAt m) 0 < cutoff)) := by
        intro m hm
        have hmn : m ≠ n := fun h => hnotin (h ▸ hm)
        rw [(pruneStep_preserve cutoff st n m hmn).2.1]
      have hb : decide (0 < jsNumOr (mget st.1.lastSeenAt n) 0
          ∧ jsNumOr (mget st.1.lastSeenAt n) 0 < cutoff) = true :=
        decide_eq_true hcond
      rw [ih (List.nodup_cons.mp hnd).2 (pruneStep cutoff st n),
        List.filter_congr hfc, hstep, List.filter_cons, if_pos hb,
        List.length_cons]
      omega
    · have hstep : pruneStep cutoff st n = st := by
        simp only [pruneStep]
        rw [if_neg hcond]
      have hb : decide (0 < jsNumOr (mget st.1.lastSeenAt n) 0
          ∧ jsNumOr (mget st.1.lastSeenAt n) 0 < cutoff) = false :=
        decide_eq_false hcond
      rw [ih (List.nodup_cons.mp hnd).2 (pruneStep cutoff st n), hstep,
        List.filter_cons, hb]
      rfl

theorem mget_isSome_mem_keys {α : Type} (m : List (String × α)) (x : String)
    (h : (mget m x).isSome) : x ∈ mkeys m := by
  by_contra hx
  rw [mget_eq_none_of_not_mem_keys m x hx] at h
  exact absurd h (by simp)

theorem prune_characterization (maxAgeDays now : ℚ) (c : MinerCache)
    (hnd : (mkeys c.bestDiffs).Nodup) :
    (∀ x, mget (pruneInactiveWorkers maxAgeDays now c).1.bestDiffs x
        = if 0 < jsNumOr (mget c.lastSeenAt x) 0
              ∧ jsNumOr (mget c.lastSeenAt x) 0 < now - maxAgeDays * 86400
          then none else mget c.bestDiffs x)
    ∧ (∀ x, mget (pruneInactiveWorkers maxAgeDays now c).1.lastSeenAt x
        = if (0 < jsNumOr (mget c.lastSeenAt x) 0
              ∧ jsNumOr (mget c.lastSeenAt x) 0 < now - maxAgeDays * 86400)
             ∧ x ∈ mkeys c.bestDiffs
          then none else mget c.lastSeenAt x)
    ∧ (∀ x, mget (pruneInactiveWorkers maxAgeDays now c).1.workers x
        = if (0 < jsNumOr (mget c.lastSeenAt x) 0
              ∧ jsNumOr (mget c.lastSeenAt x) 0 < now - maxAgeDays * 86400)
             ∧ x ∈ mkeys c.bestDiffs
          then none else mget c.workers x)
    ∧ (pruneInactiveWorkers maxAgeDays now c).1.users = c.users
    ∧ (pruneInactiveWorkers maxAgeDays now c).2
        = ((mkeys c.bestDiffs).filter (fun n =>
            decide (0 < jsNumOr (mget c.lastSeenAt n) 0
              ∧ jsNumOr (mget c.lastSeenAt n) 0 < now - maxAgeDays * 86400))).length := by
  have hshow : pruneInactiveWorkers maxAgeDays now c
      = (mkeys c.bestDiffs).foldl (pruneStep (now - maxAgeDays * 86400)) (c, 0) :=
    rfl
  refine ⟨fun x => ?_, fun x => ?_, fun x => ?_, ?_, ?_⟩
  · by_cases hmem : x ∈ mkeys c.bestDiffs
    · have h := (pruneFold_processed (now - maxAgeDays * 86400)
        (mkeys c.bestDiffs) hnd x hmem (c, 0)).1
      rw [hshow]
      exact h
    · have h := (pruneFold_untouched (now - maxAgeDays * 86400)
        (mkeys c.bestDiffs) (c, 0) x hmem).1
      rw [hshow, h]
      have hnone := mget_eq_none_of_not_mem_keys c.bestDiffs x hmem
      by_cases hcond : 0 < jsNumOr (mget c.lastSeenAt x) 0
          ∧ jsNumOr (mget c.lastSeenAt x) 0 < now - maxAgeDays * 86400
      · rw [if_pos hcond, hnone]
      · rw [if_neg hcond]
  · by_cases hmem : x ∈ mkeys c.bestDiffs
    · have h := (pruneFold_processed (now - maxAgeDays * 86400)
        (mkeys c.bestDiffs) hnd x hmem (c, 0)).2.1
      rw [hshow, h]
      by_cases hcond : 0 < jsNumOr (mget c.lastSeenAt x) 0
          ∧ jsNumOr (mget c.lastSeenAt x) 0 < now - maxAgeDays * 86400
      · rw [if_pos hcond, if_pos ⟨hcond, hmem⟩]
      · rw [if_neg hcond, if_neg (fun h2 => hcond h2.1)]
    · have h := (pruneFold_untouched (now - maxAgeDays * 86400)
        (mkeys c.bestDiffs) (c, 0) x hmem).2.1
      rw [hshow, h, if_neg (fun h2 => hmem h2.2)]
  · by_cases hmem : x ∈ mkeys c.bestDiffs
    · have h := (pruneFold_processed (now - maxAgeDays * 86400)
        (mkeys c.bestDiffs) hnd x hmem (c, 0)).2.2
      rw [hshow, h]
      by_cases hcond : 0 < jsNumOr (mget c.lastSeenAt x) 0
          ∧ jsNumOr (mget c.lastSeenAt x) 0 < now - maxAgeDays * 86400
      · rw [if_pos hcond, if_pos ⟨hcond, hmem⟩]
      · rw [if_neg hcond, if_neg (fun h2 => hcond h2.1)]
    · have h := (pruneFold_untouched (now - maxAgeDays * 86400)
        (mkeys c.bestDiffs) (c, 0) x hmem).2.2
      rw [hshow, h, if_neg (fun h2 => hmem h2.2)]
  · rw [hshow]
    exact pruneFold_users _ _ _
  · rw [hshow]
    simpa using pruneFold_count (now - maxAgeDays * 86400) (mkeys c.bestDiffs)
      hnd (c, 0)

/-- C3 counterexample: an identity recorded only in `lastSeenAt` (no
leaderboard `bestDiffs` entry) with a positive last-seen time strictly older
than the cutoff is not removed by the prune — its entry survives and the
prune reports zero removals — refuting "removes exactly the identities whose
lastSeenAt is recorded and strictly older than the cutoff". -/
theorem prune_keeps_stale_nonleaderboard_identity :
    ((0 : ℚ) < 1 ∧ (1 : ℚ) < 2419202 - 28 * 86400)
    ∧ (pruneInactiveWorkers 28 2419202 ⟨[], [], [], [("w", 1)]⟩).2 = 0
    ∧ mget (pruneInactiveWorkers 28 2419202 ⟨[], [], [], [("w", 1)]⟩).1.lastSeenAt
        "w" = some 1 := by
  refine ⟨⟨by norm_num, by norm_num⟩, rfl, rfl⟩

/-- C3 (amended): `pruneInactiveWorkers(maxAgeDays)` removes exactly the
identities with a `bestDiffs` (leaderboard) entry whose recorded `lastSeenAt`
is positive and strictly older than `now - maxAgeDays` days; an identity with
no recorded `lastSeenAt` is never removed; the returned count is the number of
removed entries; and immediately re-running the prune with no intervening
observations removes zero further entries. -/
theorem pruneInactiveWorkers_spec (maxAgeDays now : ℚ) (c : MinerCache)
    (hnd : (mkeys c.bestDiffs).Nodup) :
    (∀ x, mget (pruneInactiveWorkers maxAgeDays now c).1.bestDiffs x
        = if 0 < jsNumOr (mget c.lastSeenAt x) 0
              ∧ jsNumOr (mget c.lastSeenAt x) 0 < now - maxAgeDays * 86400
          then none else mget c.bestDiffs x)
    ∧ (∀ x, mget c.lastSeenAt x = none →
        mget (pruneInactiveWorkers maxAgeDays now c).1.bestDiffs x
          = mget c.bestDiffs x)
    ∧ (pruneInactiveWorkers maxAgeDays now c).2
        = ((mkeys c.bestDiffs).filter (fun n =>
            decide (0 < jsNumOr (mget c.lastSeenAt n) 0
              ∧ jsNumOr (mget c.lastSeenAt n) 0 < now - maxAgeDays * 86400))).length
    ∧ (pruneInactiveWorkers maxAgeDays now
        (pruneInactiveWorkers maxAgeDays now c).1).2 = 0 := by
  obtain ⟨h1, h2, _h3, _h4, h5⟩ := prune_characterization maxAgeDays now c hnd
  refine ⟨h1, ?_, h5, ?_⟩
  · intro x hx
    rw [h1 x, hx]
    have : ¬ (0 < jsNumOr (none : Option ℚ) 0
        ∧ jsNumOr (none : Option ℚ) 0 < now - maxAgeDays * 86400) := by
      simp [jsNumOr]
    rw [if_neg this]
  · have hsub : ((pruneInactiveWorkers maxAgeDays now c).1.bestDiffs).Sublist
        c.bestDiffs :=
      pruneFold_sublist (now - maxAgeDays * 86400) (mkeys c.bestDiffs) (c, 0)
    have hnd2 : (mkeys (pruneInactiveWorkers maxAgeDays now c).1.bestDiffs).Nodup :=
      hnd.sublist (hsub.map Prod.fst)
    obtain ⟨g1, g2, _g3, _g4, g5⟩ :=
      prune_characterization maxAgeDays now
        (pruneInactiveWorkers maxAgeDays now c).1 hnd2
    rw [g5]
    have hempty : (mkeys (pruneInactiveWorkers maxAgeDays now c).1.bestDiffs).filter
        (fun n => decide (0 < jsNumOr
            (mget (pruneInactiveWorkers maxAgeDays now c).1.lastSeenAt n) 0
          ∧ jsNumOr (mget (pruneInactiveWorkers maxAgeDays now c).1.lastSeenAt n) 0
            < now - maxAgeDays * 86400)) = [] := by
      rw [List.filter_eq_nil_iff]
      intro n hn
      have hsome := mget_isSome_of_mem_keys _ _ hn
      have hnc : ¬ (0 < jsNumOr (mget c.lastSeenAt n) 0
          ∧ jsNumOr (mget c.lastSeenAt n) 0 < now - maxAgeDays * 86400) := by
        intro hcond
        rw [h1 n, if_pos hcond] at hsome
        exact absurd hsome (by simp)
      have hls : mget (pruneInactiveWorkers maxAgeDays now c).1.lastSeenAt n
          = mget c.lastSeenAt n := by
        rw [h2 n, if_neg (fun h => hnc h.1)]
      rw [hls]
      simpa using hnc
    rw [hempty]
    rfl

theorem pruneInactiveWorkers_spec_witness :
    mget (pruneInactiveWorkers 28 2419202
        ⟨[("w", "Bitaxe")], [], [("w", 5)], [("w", 1)]⟩).1.bestDiffs "w"
      = if 0 < jsNumOr (mget ([("w", (1:ℚ))]) "w") 0
            ∧ jsNumOr (mget ([("w", (1:ℚ))]) "w") 0 < 2419202 - 28 * 86400
        then none
        else mget ([("w", (5:ℚ))]) "w" :=
  (pruneInactiveWorkers_spec 28 2419202
    ⟨[("w", "Bitaxe")], [], [("w", 5)], [("w", 1)]⟩ (by decide)).1 "w"

/-- C10: for every identity it removes, the prune deletes that identity's
entries from `bestDiffs`, `workers` and `lastSeenAt` together, and it never
modifies the `users` (owner-address to miner-type) mapping. -/
theorem pruneInactiveWorkers_frame (maxAgeDays now : ℚ) (c : MinerCache)
    (hnd : (mkeys c.bestDiffs).Nodup) :
    (pruneInactiveWorkers maxAgeDays now c).1.users = c.users
    ∧ ∀ x, (mget c.bestDiffs x).isSome →
        mget (pruneInactiveWorkers maxAgeDays now c).1.bestDiffs x = none →
        mget (pruneInactiveWorkers maxAgeDays now c).1.workers x = none
        ∧ mget (pruneInactiveWorkers maxAgeDays now c).1.lastSeenAt x = none := by
  obtain ⟨h1, h2, h3, h4, _h5⟩ := prune_characterization maxAgeDays now c hnd
  refine ⟨h4, fun x hsome hgone => ?_⟩
  have hmem : x ∈ mkeys c.bestDiffs := mget_isSome_mem_keys _ _ hsome
  have hcond : 0 < jsNumOr (mget c.lastSeenAt x) 0
      ∧ jsNumOr (mget c.lastSeenAt x) 0 < now - maxAgeDays * 86400 := by
    by_contra hnc
    rw [h1 x, if_neg hnc] at hgone
    rw [hgone] at hsome
    exact absurd hsome (by simp)
  constructor
  · rw [h3 x, if_pos ⟨hcond, hmem⟩]
  · rw [h2 x, if_pos ⟨hcond, hmem⟩]

theorem pruneInactiveWorkers_frame_witness :
    (pruneInactiveWorkers 28 2419202
        ⟨[("w", "Bitaxe")], [], [("w", 5)], [("w", 1)]⟩).1.users = [] :=
  (pruneInactiveWorkers_frame 28 2419202
    ⟨[("w", "Bitaxe")], [], [("w", 5)], [("w", 1)]⟩ (by decide)).1

/-! ### Claim C4 -/

theorem le32dec_le32enc (L : ℕ) (hL : L < 4294967296) (t : List ℕ) :
    le32dec (le32enc L ++ t) = L := by
  simp only [le32enc, List.cons_append, List.nil_append, le32dec]
  omega

/-- The receive-machine state after consuming the prefix `q` of the frame
for payload `p`. -/
def midState (p q : List ℕ) : RecvState :=
  if q.length < 4 then ⟨q, none, none⟩
  else if q.length < 4 + p.length then ⟨q.drop 4, some p.length, none⟩
  else ⟨q.drop 4, some p.length, some p⟩

theorem onData_mid (p q cc r : List ℕ) (hp : p.length < 4294967296)
    (hsplit : q ++ (cc ++ r) = le32enc p.length ++ p) :
    sendCommandOnData (midState p q) cc = midState p (q ++ cc) := by
  have hq : (q ++ cc) ++ r = le32enc p.length ++ p := by
    simpa [List.append_assoc] using hsplit
  have hel : (le32enc p.length).length = 4 := by simp [le32enc]
  have hqc : (q ++ cc).length = q.length + cc.length := by simp
  have hm : (q ++ cc).length + r.length = 4 + p.length := by
    have h2 := congrArg List.length hq
    simp only [List.length_append] at h2 hqc ⊢
    omega
  by_cases hA : (q ++ cc).length < 4
  · have hqa : q.length < 4 := by omega
    have hA4 : ¬ 4 ≤ q.length + cc.length := by omega
    have hA2 : q.length + cc.length < 4 := by omega
    simp [midState, sendCommandOnData, hqa, hA2, hA4]
  · have h4m : 4 ≤ (q ++ cc).length := le_of_not_lt hA
    have ht4 : (q ++ cc).take 4 = le32enc p.length := by
      have h1 : ((q ++ cc) ++ r).take 4 = (q ++ cc).take 4 :=
        List.take_append_of_le_length (by omega)
      rw [← h1, hq, ← hel, List.take_left]
    by_cases hB : q.length < 4
    · have hdec : le32dec (q ++ cc) = p.length := by
        have h2 : le32dec (q ++ cc)
            = le32dec ((q ++ cc).take 4 ++ (q ++ cc).drop 4) := by
          rw [List.take_append_drop]
        rw [h2, ht4, le32dec_le32enc _ hp]
      by_cases hC : (q ++ cc).length < 4 + p.length
      · have hno : ¬ p.length ≤ q.length + cc.length - 4 := by omega
        have hA2 : ¬ q.length + cc.length < 4 := by omega
        have h4m2 : 4 ≤ q.length + cc.length := by omega
        have hC2 : q.length + cc.length < 4 + p.length := by omega
        simp [midState, sendCommandOnData, hB, hA2, hC2, hdec, h4m2, hno]
      · have hr : r = [] :=
          List.eq_nil_of_length_eq_zero (by omega)
        have hqs : q ++ cc = le32enc p.length ++ p := by
          simpa [hr] using hq
        have hdrop : (q ++ cc).drop 4 = p := by
          rw [hqs, ← hel, List.drop_left]
        have hyes : p.length ≤ q.length + cc.length - 4 := by omega
        have hA2 : ¬ q.length + cc.length < 4 := by omega
        have h4m2 : 4 ≤ q.length + cc.length := by omega
        have hC2 : ¬ q.length + cc.length < 4 + p.length := by omega
        simp [midState, sendCommandOnData, hB, hA2, hC2, hdec, h4m2, hdrop, hyes]
    · by_cases hD : q.length < 4 + p.length
      · have hqcc : (q ++ cc).drop 4 = q.drop 4 ++ cc := by
          rw [List.drop_append_eq_append_drop,
            show 4 - q.length = 0 by omega, List.drop_zero]
        by_cases hC : (q ++ cc).length < 4 + p.length
        · have hno : ¬ p.length ≤ q.length - 4 + cc.length := by omega
          have hA2 : ¬ q.length + cc.length < 4 := by omega
          have hC2 : q.length + cc.length < 4 + p.length := by omega
          simp [midState, sendCommandOnData, hB, hA2, hC2, hD, hqcc, hno]
        · have hr : r = [] :=
            List.eq_nil_of_length_eq_zero (by omega)
          have hqs : q ++ cc = le32enc p.length ++ p := by
            simpa [hr] using hq
          have hdrop2 : q.drop 4 ++ cc = p := by
            rw [← hqcc, hqs, ← hel, List.drop_left]
          have hyes : p.length ≤ q.length - 4 + cc.length := by omega
          have hA2 : ¬ q.length + cc.length < 4 := by omega
          have hC2 : ¬ q.length + cc.length < 4 + p.length := by omega
          simp [midState, sendCommandOnData, hB, hA2, hC2, hD, hqcc, hdrop2, hyes]
      · have hcc : cc = [] := by
          refine List.eq_nil_of_length_eq_zero ?_
          omega
        subst hcc
        simp [midState, sendCommandOnData, hB, hD]

theorem sendCommandRun_mid (p : List ℕ) (hp : p.length < 4294967296) :
    ∀ (cs : List (List ℕ)) (q : List ℕ),
    q ++ cs.flatten = le32enc p.length ++ p →
    cs.foldl sendCommandOnData (midState p q) = midState p (q ++ cs.flatten) := by
  intro cs
  induction cs with
  | nil =>
    intro q h
    simp
  | cons cc cs ih =>
    intro q h
    rw [List.flatten_cons] at h ⊢
    rw [List.foldl_cons,
      onData_mid p q cc cs.flatten hp (by simpa [List.append_assoc] using h)]
    have h2 := ih (q ++ cc) (by simpa [List.append_assoc] using h)
    rw [h2, List.append_assoc]

/-- C4: for every payload and every way of splitting the framed byte stream
(4-byte little-endian length prefix followed by the payload) into successive
socket data chunks, the receive machine of `sendCommand` resolves with exactly
the original payload bytes; JSON decoding, with the raw-string fallback, is
then applied to precisely these bytes. -/
theorem sendCommand_reassembles_frame (p : List ℕ) (cs : List (List ℕ))
    (hlen : p.length < 4294967296)
    (hjoin : cs.flatten = le32enc p.length ++ p) :
    (sendCommandRun cs).resolved = some p := by
  have h0 : recvInit = midState p [] := by
    simp [midState, recvInit]
  have hrun := sendCommandRun_mid p hlen cs [] (by simpa using hjoin)
  rw [sendCommandRun, h0, hrun]
  have hslen : ([] ++ cs.flatten).length = 4 + p.length := by
    simp only [List.nil_append, hjoin, List.length_append, le32enc,
      List.length_cons, List.length_nil]
  rw [midState, if_neg (by omega), if_neg (by omega)]

theorem sendCommand_reassembles_frame_witness :
    (sendCommandRun [[2, 0], [0, 0, 123], [125]]).resolved = some [123, 125] :=
  sendCommand_reassembles_frame [123, 125] [[2, 0], [0, 0, 123], [125]]
    (by decide) (by decide)

/-! ### Claim C8 -/

theorem rateLimit_in_window (store : List (String × RLData)) (ip : String)
    (t0 : ℚ) (k : ℕ) (now : ℚ) (hs : mget store ip = some ⟨t0, k⟩)
    (hw : now - t0 ≤ 60000) :
    rateLimit store ip now
      = (if 120 < k + 1 then false else true, mset store ip ⟨t0, k + 1⟩) := by
  have hwd : ¬ (RATE_LIMIT_WINDOW < now - t0) := by
    simp only [RATE_LIMIT_WINDOW]
    linarith
  simp only [rateLimit, hs, if_neg hwd, RATE_LIMIT_MAX]
  by_cases hk : 120 < k + 1 <;> simp [hk]

theorem rateLimitSeq_counts (ip : String) (t0 : ℚ) :
    ∀ (ts : List ℚ) (k : ℕ) (store : List (String × RLData)),
    mget store ip = some ⟨t0, k⟩ → (∀ t ∈ ts, t - t0 ≤ 60000) →
    rateLimitSeq store ip ts
      = (List.range ts.length).map
          (fun i => if 120 < k + 1 + i then false else true) := by
  intro ts
  induction ts with
  | nil => intro k store _ _; rfl
  | cons t ts ih =>
    intro k store hs hin
    have hstep := rateLimit_in_window store ip t0 k t hs
      (hin t (List.mem_cons_self t ts))
    have htail := ih (k + 1) (mset store ip ⟨t0, k + 1⟩)
      (mget_mset_self _ _ _) (fun u hu => hin u (List.mem_cons_of_mem t hu))
    simp only [rateLimitSeq, hstep, htail, List.length_cons,
      List.range_succ_eq_map, List.map_cons, List.map_map]
    congr 1
    · refine List.map_congr_left ?_
      intro i _
      simp only [Function.comp]
      have harith : k + 1 + (i + 1) = k + 1 + 1 + i := by omega
      rw [harith]

/-- C8: starting with no window recorded for a client key, among 121 requests
arriving within one fixed 60-second window the first 120 are allowed and
exactly the 121st is rejected; and a request arriving more than a window
length after the recorded window start begins a fresh window whose count is
reset (the request is allowed and stored with count 1). -/
theorem rateLimit_fixed_window (ip : String) (t0 : ℚ) (ts : List ℚ)
    (store : List (String × RLData)) (habs : mget store ip = none)
    (hlen : ts.length = 120) (hin : ∀ t ∈ ts, t - t0 ≤ 60000) :
    rateLimitSeq store ip (t0 :: ts) = List.replicate 120 true ++ [false]
    ∧ (∀ (st : List (String × RLData)) (d : RLData) (now : ℚ),
        mget st ip = some d → 60000 < now - d.windowStart →
        rateLimit st ip now = (true, mset st ip ⟨now, 1⟩)) := by
  constructor
  · have h1 : rateLimit store ip t0 = (true, mset store ip ⟨t0, 1⟩) := by
      simp only [rateLimit, habs]
      rw [if_neg (by simp [RATE_LIMIT_MAX])]
    have htail := rateLimitSeq_counts ip t0 ts 1 (mset store ip ⟨t0, 1⟩)
      (mget_mset_self _ _ _) hin
    simp only [rateLimitSeq, h1, htail, hlen]
    decide
  · intro st d now hs hw
    have hwd : RATE_LIMIT_WINDOW < now - d.windowStart := by
      simp only [RATE_LIMIT_WINDOW]
      linarith
    simp only [rateLimit, hs, if_pos hwd]
    norm_num [RATE_LIMIT_MAX]

theorem rateLimit_fixed_window_witness :
    rateLimitSeq [] "i" ((0 : ℚ) :: List.replicate 120 0)
      = List.replicate 120 true ++ [false] :=
  (rateLimit_fixed_window "i" 0 (List.replicate 120 0) [] rfl (by decide)
    (fun t ht => by
      rw [List.eq_of_mem_replicate ht]
      norm_num)).1

/-! ### Claim C9 -/

/-- C9: a request whose path is `/health` passes `protectApi` without the
marker header, the token, or a valid origin; in the `/api` middleware chain it
remains subject to the rate limiter, which runs first and grants `/health` no
exemption (an over-limit `/health` request gets 429, an allowed one is
handled); and every other request lacking the marker header or the correct
token is rejected with 403. -/
theorem protectApi_health_bypass (token : String) :
    (∀ req : ApiRequest, req.path = "/health" → protectApi token req = .next)
    ∧ (∀ (req : ApiRequest) (store : List (String × RLData)) (now : ℚ),
        req.path = "/health" → (rateLimit store (clientKey req) now).1 = false →
        (apiMiddleware token store req now).1 = .tooManyRequests)
    ∧ (∀ (req : ApiRequest) (store : List (String × RLData)) (now : ℚ),
        req.path = "/health" → (rateLimit store (clientKey req) now).1 = true →
        (apiMiddleware token store req now).1 = .handled)
    ∧ (∀ req : ApiRequest, req.path ≠ "/health" →
        (req.xPoolRequest ≠ some "internal" ∨ req.xPoolToken ≠ some token) →
        (protectApi token req).isForbidden = true) := by
  refine ⟨?_, ?_, ?_, ?_⟩
  · intro req h
    simp [protectApi, h]
  · intro req store now _ hr
    simp [apiMiddleware, hr]
  · intro req store now hp hr
    simp [apiMiddleware, hr, protectApi, hp]
  · intro req hp hcase
    rcases hcase with hm | ht
    · simp [protectApi, hp, hm, GateResult.isForbidden]
    · by_cases hm2 : req.xPoolRequest = some "internal"
      · simp [protectApi, hp, hm2, ht, GateResult.isForbidden]
      · simp [protectApi, hp, hm2, GateResult.isForbidden]

theorem protectApi_health_bypass_witness :
    protectApi "tok" { path := "/health" } = GateResult.next :=
  (protectApi_health_bypass "tok").1 { path := "/health" } rfl
